import Mathlib

/-!
# Verification of the pywhiten pre-whitening core

Shallow embedding of the pywhiten data model and the operations referenced by
the specification, together with theorems settling each spec claim.

Conventions used throughout:
* Python/numpy floats are modelled as exact rationals (`ℚ`) wherever the code
  only performs field arithmetic and comparisons; transcendental quantities
  (sine, square roots, π) live in `ℝ` at the theorem level.
* numpy arrays are Lean `List`s; boolean-mask selection, `argmax`, slicing and
  `linspace` are embedded below following numpy semantics.
* External numerical collaborators (the Lomb-Scargle power routine, the lmfit /
  scipy optimizers, the fitted SLF / polynomial noise curves) are deterministic
  oracles passed in as function arguments: the claims under check concern the
  control flow and arithmetic of pywhiten itself, not of its libraries.
-/

/-! ## `pywhiten/optimization/models.py` -/

/-- `models.sin_model`: `a*np.sin(2*np.pi*(f*x+p))` (real-valued model used at
theorem level; parameters enter as exact rationals). -/
noncomputable def sin_model (x f a p : ℝ) : ℝ :=
  a * Real.sin (2 * Real.pi * (f * x + p))

/-- `models.cos_model`: `a*np.cos(2*np.pi*(f*x+p))`. -/
noncomputable def cos_model (x f a p : ℝ) : ℝ :=
  a * Real.cos (2 * Real.pi * (f * x + p))

/-! ## `pywhiten/data/Frequency.py` -/

/-- `data.Frequency`: one extracted periodic component.  `sig_box` is *not* a
declared class attribute and is not set by `Frequency.__init__`; it only comes
into existence when `FrequencyContainer.compute_significances` assigns it, so
it is modelled as an `Option` (with `none` meaning "attribute absent", i.e. an
`AttributeError` on read).  Likewise the three `sigma_*` uncertainty attributes
are only annotated, never initialised, in `Frequency.__init__`. -/
structure Frequency where
  f : ℚ
  a : ℚ
  p : ℚ
  t0 : ℚ
  f0 : ℚ
  a0 : ℚ
  p0 : ℚ
  n : Option ℤ
  model_function : ℝ → ℝ → ℝ → ℝ → ℝ
  sig_poly : ℚ
  sig_avg : ℚ
  sig_slf : ℚ
  sig_box : Option ℚ
  sigma_f : Option ℝ
  sigma_a : Option ℝ
  sigma_p : Option ℝ

/-- `Frequency.__init__(f, a, p, t0, model_function, n)`. -/
def Frequency.init (f a p t0 : ℚ) (model_function : ℝ → ℝ → ℝ → ℝ → ℝ)
    (n : Option ℤ) : Frequency :=
  { f := f, a := a, p := p, t0 := t0, f0 := f, a0 := a, p0 := p, n := n
    model_function := model_function
    sig_poly := 0, sig_avg := 0, sig_slf := 0, sig_box := none
    sigma_f := none, sigma_a := none, sigma_p := none }

/-- `Frequency.evaluate_model(x)`: `self.model_function(x, self.f, self.a, self.p)`. -/
noncomputable def Frequency.evaluate_model (fr : Frequency) (x : ℝ) : ℝ :=
  fr.model_function x (fr.f : ℝ) (fr.a : ℝ) (fr.p : ℝ)

/-- Python `p % 1` on a (finite) float: the fractional part `p - ⌊p⌋`. -/
def pyMod1 (p : ℚ) : ℚ := p - ⌊p⌋

/-- `Frequency.adjust_params()`: flips a negative amplitude (shifting phase by
half a cycle) and reduces an out-of-range phase modulo 1. -/
def Frequency.adjust_params (fr : Frequency) : Frequency :=
  let a1 := if fr.a < 0 then |fr.a| else fr.a
  let p1 := if fr.a < 0 then fr.p + 1/2 else fr.p
  let p2 := if p1 > 1 ∨ p1 < 0 then pyMod1 p1 else p1
  { fr with a := a1, p := p2 }

/-! ## `pywhiten/data/FrequencyContainer.py` -/

/-- `FrequencyContainer.mf_model(time, zp)` at a single time `t`: starts from
`np.zeros`, accumulates `sin_model(time, *f.get_parameters())` over `flist` in
order, then adds `zp`.  Note the source always calls `sin_model` here — it
never consults a stored `model_function`. -/
noncomputable def mf_model_at (flist : List Frequency) (t zp : ℝ) : ℝ :=
  flist.foldl (fun y fr => y + sin_model t (fr.f : ℝ) (fr.a : ℝ) (fr.p : ℝ)) 0 + zp

/-! ## `pywhiten/data/Lightcurve.py` -/

/-- `Lightcurve.measure_N_eff()`: number of adjacent strict sign changes in the
data sequence.  (The source iterates over `range(len(self.time)-1)` indexing
`self.data`; time and data have equal length for any `Lightcurve`, so the walk
is over adjacent data pairs.) -/
def measure_N_eff : List ℚ → ℕ
  | a :: b :: rest =>
    (if (a > 0 ∧ b < 0) ∨ (a < 0 ∧ b > 0) then 1 else 0) + measure_N_eff (b :: rest)
  | _ => 0

/-- Python `max` over a list (`max` of an empty sequence raises in Python;
this total model returns 0 there and is only applied to nonempty lists in the
theorems below). -/
def listMax (l : List ℚ) : ℚ := l.foldl max (l.headD 0)

/-- Python `min` over a (nonempty) list. -/
def listMin (l : List ℚ) : ℚ := l.foldl min (l.headD 0)

/-- `Lightcurve.t_span()`: `max(time) - min(time)`. -/
def t_span (time : List ℚ) : ℚ := listMax time - listMin time

/-- numpy `mean`. -/
def listMean (l : List ℚ) : ℚ := l.sum / l.length

/-- The radicand of `np.std`: mean squared deviation from the mean. -/
def lcVariance (d : List ℚ) : ℚ :=
  (d.map (fun x => (x - listMean d) ^ 2)).sum / d.length

/-- `Lightcurve.std()`: `np.std(self.data)` (population standard deviation). -/
noncomputable def lcStd (d : List ℚ) : ℝ := Real.sqrt (lcVariance d)

/-! ## `FrequencyContainer.compute_parameter_uncertainties` -/

/-- `(6/N_eff) ** 0.5 * sigma_residuals / (np.pi * time_baseline * f.a)` as the
source writes it (`**0.5` is real exponentiation by `1/2`). -/
noncomputable def sigma_f_formula (time data : List ℚ) (a : ℚ) : ℝ :=
  ((6 : ℝ) / (measure_N_eff data : ℝ)) ^ ((1 : ℝ) / 2) * lcStd data /
    (Real.pi * (t_span time : ℝ) * (a : ℝ))

/-- `(2/N_eff) ** 0.5 * sigma_residuals`. -/
noncomputable def sigma_a_formula (data : List ℚ) : ℝ :=
  ((2 : ℝ) / (measure_N_eff data : ℝ)) ^ ((1 : ℝ) / 2) * lcStd data

/-- `(2/N_eff) ** 0.5 * sigma_residuals / f.a`. -/
noncomputable def sigma_p_formula (data : List ℚ) (a : ℚ) : ℝ :=
  ((2 : ℝ) / (measure_N_eff data : ℝ)) ^ ((1 : ℝ) / 2) * lcStd data / (a : ℝ)

/-- `FrequencyContainer.compute_parameter_uncertainties(residual_light_curve)`:
writes the three `sigma_*` attributes of every stored frequency from the
residual light curve's `measure_N_eff`, `std` and `t_span`. -/
noncomputable def compute_parameter_uncertainties (flist : List Frequency)
    (time data : List ℚ) : List Frequency :=
  flist.map (fun fr =>
    { fr with
      sigma_f := some (sigma_f_formula time data fr.a)
      sigma_a := some (sigma_a_formula data)
      sigma_p := some (sigma_p_formula data fr.a) })

/-! ## `pywhiten/data/Periodogram.py` — computable core

The periodogram of a residual series, as the peak-selection and significance
methods see it: the frequency/amplitude arrays, plus the two fitted noise
curves as function-valued oracles (`slf_noise(x, *slf_p)` and
`10 ** n_model_poly(log10 x, *log_polypar)`), which stand for the cached
`curve_fit` results of `fit_slf` / `fit_lopoly` — transcendental scalar
functions pywhiten receives from scipy rather than computes itself. -/
structure Pgram where
  lsfreq : List ℚ
  lsamp : List ℚ
  slfNoiseFun : ℚ → ℚ
  polyNoiseFun : ℚ → ℚ

/-- `Periodogram.find_index_of_freq(t)`: linear scan for the bracketing pair
`lsfreq[i] <= t < lsfreq[i+1]`, then picks between `i` and `i+1` with the
source's comparison `abs(lsfreq[i]-t) > abs(lsfreq[i+1]-t) ? i : i+1`;
out-of-span queries map to `0` or `len(lsfreq)`. -/
def find_index_of_freq (lsf : List ℚ) (t : ℚ) : ℕ :=
  match (List.range (lsf.length - 1)).find?
      (fun i => decide (lsf.getD i 0 ≤ t) && decide (t < lsf.getD (i + 1) 0)) with
  | some i => if |lsf.getD i 0 - t| > |lsf.getD (i + 1) 0 - t| then i else i + 1
  | none => if t < lsf.getD 0 0 then 0 else lsf.length

/-- `Periodogram.sig_box(center_val_freq, freq_amp, bin_r)`: amplitude over the
mean periodogram amplitude in `lsamp[lower_i:upper_i]` around the grid index
`find_index_of_freq` assigns to the query frequency (`getD` stands for the
source's direct indexing, which is in range for on-grid queries). -/
def sig_box_fun (lsf lsa : List ℚ) (cv amp binr : ℚ) : ℚ :=
  let ci := find_index_of_freq lsf cv
  let lower_val := lsf.getD ci 0 - binr
  let upper_val := lsf.getD ci 0 + binr
  let li := find_index_of_freq lsf lower_val
  let ui := find_index_of_freq lsf upper_val
  amp / listMean ((lsa.take ui).drop li)

/-- Python list indexing including the single negative-index wraparound. -/
def pyGet (l : List ℚ) (i : ℤ) : Option ℚ :=
  if 0 ≤ i then l.get? i.toNat
  else if 0 ≤ (l.length : ℤ) + i then l.get? ((l.length : ℤ) + i).toNat
  else none

/-- Python falsiness of `left_i` / `right_i` in `find_troughs`: `None` and `0`
are both falsy. -/
def falsy : Option ℤ → Bool
  | none => true
  | some v => v == 0

/-- The left-trough condition of one `find_troughs` iteration:
`center - count == 0 or lsamp[center-count] >= lsamp[center-count+1]`
(short-circuit; `none` models an `IndexError`). -/
def ft_left_cond (lsa : List ℚ) (center count : ℤ) : Option Bool :=
  if center - count = 0 then some true
  else do
    let x ← pyGet lsa (center - count)
    let y ← pyGet lsa (center - count + 1)
    some (decide (x ≥ y))

/-- The right-trough condition of one `find_troughs` iteration:
`center + count == len(lsfreq) or lsamp[center+count] >= lsamp[center+count-1]`. -/
def ft_right_cond (lsa : List ℚ) (len : ℕ) (center count : ℤ) : Option Bool :=
  if center + count = (len : ℤ) then some true
  else do
    let x ← pyGet lsa (center + count)
    let y ← pyGet lsa (center + count - 1)
    some (decide (x ≥ y))

/-- The `while (not left_i) or (not right_i)` loop of
`Periodogram.find_troughs`, including the post-loop wraparound guard
(`if left_i < 0: left_i = 0; if right_i > len: left_i = len`).  Fuel-indexed;
`find_troughs` below supplies fuel exceeding the longest possible walk, and
`none` covers both `IndexError` and fuel exhaustion. -/
def ft_loop (lsa : List ℚ) (len : ℕ) (center : ℤ) :
    ℕ → ℤ → Option ℤ → Option ℤ → Option (ℤ × ℤ)
  | 0, _, _, _ => none
  | fuel + 1, count, li, ri =>
    if falsy li || falsy ri then
      let count1 := count + 1
      match (if falsy li then ft_left_cond lsa center count1 else some false) with
      | none => none
      | some bl =>
        let li1 := if bl then some (center - count1 + 1) else li
        match (if falsy ri then ft_right_cond lsa len center count1 else some false) with
        | none => none
        | some br =>
          let ri1 := if br then some (center + count1 - 1) else ri
          ft_loop lsa len center fuel count1 li1 ri1
    else
      match li, ri with
      | some l, some r =>
        let l1 := if l < 0 then (if r > (len : ℤ) then (len : ℤ) else 0) else l
        some (l1, r)
      | _, _ => none

/-- `Periodogram.find_troughs(center)` with `count` starting at 2 and both
trough indices unset. -/
def find_troughs (lsf lsa : List ℚ) (center : ℕ) : Option (ℤ × ℤ) :=
  ft_loop lsa lsf.length (center : ℤ) (2 * lsf.length + center + 16) 2 none none

/-- Errors of `Periodogram.peak_sig_box`: the dedicated
`AverageRadiusTooNarrow` exception, versus incidental indexing errors. -/
inductive PgErr
  | radiusTooNarrow
  | indexError
deriving DecidableEq

/-- The averaging region of `peak_sig_box`: target frequencies `center ± bin_r`
clamped to `[0, max(lsfreq)]`, converted to indices with
`find_index_of_freq`, then `lsamp[lower_i:trough_left] ++
lsamp[trough_right:upper_i]` — the amplitudes within the radius *excluding*
the trough-to-trough extent of the peak. -/
def box_avg_region (lsf lsa : List ℚ) (ci : ℕ) (tl tr : ℤ) (binr : ℚ) : List ℚ :=
  let lower_val := lsf.getD ci 0 - binr
  let upper_val := lsf.getD ci 0 + binr
  let lower_val1 := if lower_val < 0 then 0 else lower_val
  let upper_val1 := if upper_val > listMax lsf then listMax lsf else upper_val
  let li := find_index_of_freq lsf lower_val1
  let ui := find_index_of_freq lsf upper_val1
  ((lsa.take tl.toNat).drop li) ++ ((lsa.take ui).drop tr.toNat)

/-- `Periodogram.peak_sig_box(center_val_freq, freq_amp, bin_r)`:
`np.where(lsfreq == center_val_freq)` (first exact match), trough detection,
the `AverageRadiusTooNarrow` check, then the mean over the clamped averaging
region. -/
def peak_sig_box (lsf lsa : List ℚ) (cv amp binr : ℚ) : Except PgErr ℚ :=
  match List.findIdx? (fun y => y == cv) lsf with
  | none => .error .indexError
  | some ci =>
    match find_troughs lsf lsa ci with
    | none => .error .indexError
    | some (tl, tr) =>
      match pyGet lsf tl, pyGet lsf tr with
      | some ftl, some ftr =>
        if lsf.getD ci 0 - binr > ftl ∨ lsf.getD ci 0 + binr < ftr then
          .error .radiusTooNarrow
        else
          .ok (amp / listMean (box_avg_region lsf lsa ci tl tr binr))
      | _, _ => .error .indexError

/-- `np.argmax`: index of the first occurrence of the maximum. -/
def argmaxIdx : List ℚ → ℕ
  | [] => 0
  | x :: xs => if xs.all (fun y => decide (y ≤ x)) then 0 else argmaxIdx xs + 1

/-- numpy boolean-mask selection `arr[mask]`, as the included index list. -/
def maskIdxs (n : ℕ) (m : List Bool) : List ℕ :=
  (List.range n).filter (fun i => m.getD i false)

/-- `Periodogram.highest_ampl(excl_mask)`: mask both axes, return
`(None, None)` if nothing survives, else the (frequency, amplitude) at the
argmax of the masked amplitudes. -/
def highest_ampl (lsf lsa : List ℚ) (m : List Bool) : Option ℚ × Option ℚ :=
  let idxs := maskIdxs lsf.length m
  let fa := idxs.map (fun i => lsa.getD i 0)
  let ff := idxs.map (fun i => lsf.getD i 0)
  if fa.length = 0 then (none, none)
  else (some (ff.getD (argmaxIdx fa) 0), some (fa.getD (argmaxIdx fa) 0))

/-- The three defined `select_peak` methods (an unknown method string raises
`ValueError` in the source before any of this logic runs). -/
inductive PeakMethod
  | highest
  | slf
  | poly
deriving DecidableEq

/-- The vectorized significance `sig_slf(lsfreq, lsamp)` / `sig_poly(...)` at
grid index `i`: amplitude over the fitted noise curve at that frequency. -/
def Pgram.sigAt (pg : Pgram) (method : PeakMethod) (i : ℕ) : ℚ :=
  pg.lsamp.getD i 0 /
    (match method with
     | .slf => pg.slfNoiseFun (pg.lsfreq.getD i 0)
     | .poly => pg.polyNoiseFun (pg.lsfreq.getD i 0)
     | .highest => 1)

/-- One entry of `select_peak`'s working mask: the caller mask entry
(`np.ones * mask`), further multiplied for `slf`/`poly` by the strict
vectorized significance criterion `sig > min_prov_sig` at that grid index. -/
def select_step (pg : Pgram) (method : PeakMethod) (minSig : ℚ) (mask : List Bool)
    (i : ℕ) : Bool :=
  mask.getD i true &&
    (match method with
     | .highest => true
     | .slf => decide (pg.sigAt .slf i > minSig)
     | .poly => decide (pg.sigAt .poly i > minSig))

/-- `Periodogram.select_peak(method, min_prov_sig, mask)`: working mask =
all-ones times the caller mask (times the strict significance criterion for
`slf`/`poly`); `(None, None)` when the working mask is all false, else
`highest_ampl`. -/
def select_peak (pg : Pgram) (method : PeakMethod) (minSig : ℚ) (mask : List Bool) :
    Option ℚ × Option ℚ :=
  let wm : List Bool :=
    (List.range pg.lsfreq.length).map (select_step pg method minSig mask)
  if wm.all (fun b => !b) then (none, none)
  else highest_ampl pg.lsfreq pg.lsamp wm

/-- `Periodogram.sig_slf(f, a)` with the fitted noise curve cached. -/
def Pgram.sig_slf (pg : Pgram) (f a : ℚ) : ℚ := a / pg.slfNoiseFun f

/-- `Periodogram.sig_poly(f, a)` with the fitted noise curve cached. -/
def Pgram.sig_poly (pg : Pgram) (f a : ℚ) : ℚ := a / pg.polyNoiseFun f

/-- `Periodogram.sig_box(f, a)` at the default radius `bin_r=1.0`. -/
def Pgram.sig_box (pg : Pgram) (f a : ℚ) : ℚ := sig_box_fun pg.lsfreq pg.lsamp f a 1

/-- `FrequencyContainer.compute_significances(residual_periodogram)` with the
default evaluation tuple `("slf", "box", "poly")`: for each stored frequency it
assigns `sig_slf`, then `sig_box` (a *new* attribute — not the declared
`sig_avg`), then `sig_poly`. -/
def compute_significances (flist : List Frequency) (pg : Pgram) : List Frequency :=
  flist.map (fun fr =>
    { fr with
      sig_slf := pg.sig_slf fr.f fr.a
      sig_box := some (pg.sig_box fr.f fr.a)
      sig_poly := pg.sig_poly fr.f fr.a })

/-! ## `pywhiten/optimization/Optimizer.py` — single-frequency fit -/

/-- One lmfit result: best values of `f`, `a`, `p` and the evaluated best-fit
model.  The optimizer is a deterministic oracle of the three `value=` hints it
is given (data, weights and bounds are fixed for the duration of the call). -/
structure SfFit where
  f : ℚ
  a : ℚ
  p : ℚ
  model : List ℚ

/-- The `while True` retry loop of
`Optimizer.single_frequency_optimization` (lmfit branch).  The state that
changes between iterations is `initial_guess[2]` (`ig2`); **the hints passed
to the fit are the unchanged function arguments `f0, a0, p0` on every
iteration**, exactly as in the source.  Exits when the check is disabled or
`abs(best_p - initial_guess[2]) >= 0.1`; fuel-indexed because the source loop
is an unbounded `while True`. -/
def sfo_loop (check : Bool) (fit : ℚ → ℚ → ℚ → SfFit) (f0 a0 p0 : ℚ) :
    ℕ → ℚ → Option (ℚ × ℚ × ℚ × List ℚ)
  | 0, _ => none
  | fuel + 1, ig2 =>
    let r := fit f0 a0 p0
    if check && decide (|r.p - ig2| < 1 / 10) then
      sfo_loop check fit f0 a0 p0 fuel (ig2 + 17 / 100)
    else
      some (r.f, r.a, r.p, r.model)

/-- `Optimizer.single_frequency_optimization(x, data, err, f0, a0, p0)` with
`initial_guess = [f0, a0, p0]`. -/
def single_frequency_optimization (check : Bool) (fit : ℚ → ℚ → ℚ → SfFit)
    (f0 a0 p0 : ℚ) (fuel : ℕ) : Option (ℚ × ℚ × ℚ × List ℚ) :=
  sfo_loop check fit f0 a0 p0 fuel p0

/-! ## `Periodogram.__init__` — frequency grid construction -/

/-- `np.linspace(a, b, n)` in exact arithmetic. -/
def linspace (a b : ℚ) (n : ℕ) : List ℚ :=
  if n = 0 then []
  else if n = 1 then [a]
  else (List.range n).map (fun i : ℕ => a + (i : ℚ) * ((b - a) / ((n : ℚ) - 1)))

/-- `self.p_resolution = 1.5 / (max(time) - min(time))`. -/
def p_resolution (time : List ℚ) : ℚ := (3 / 2) / t_span time

/-- `self.p_approx_nyquist_f = len(time) / (2 * (max(time) - min(time)))`. -/
def p_approx_nyquist_f (time : List ℚ) : ℚ :=
  (time.length : ℚ) / (2 * t_span time)

/-- The configuration entries `periodograms.lower_limit` /
`periodograms.upper_limit` read by the auto-grid path.  The packaged
`default.toml` is not part of the sources; per the spec the default lower
limit is either `0` or the sentinel `"resolution"` and the default upper limit
is the approximate Nyquist frequency, so both are kept as parameters here. -/
structure PgCfg where
  lowerIsResolution : Bool
  lower : ℚ
  upper : ℚ

/-- The auto-path lower bound: `cfg["periodograms"]["lower_limit"]`, with the
`"resolution"` sentinel replaced by `p_resolution`. -/
def auto_lower (time : List ℚ) (cfg : PgCfg) : ℚ :=
  if cfg.lowerIsResolution then p_resolution time else cfg.lower

/-- The auto-path upper bound: the source takes
`ul = cfg["periodograms"]["upper_limit"]` verbatim — `p_approx_nyquist_f` is
computed two lines earlier but never consulted here. -/
def auto_upper (cfg : PgCfg) : ℚ := cfg.upper

/-- `pts_per_res * int(abs(ll - ul) / p_resolution)` (Python `int` truncates;
the operand is non-negative, so truncation is the floor). -/
def auto_num (time : List ℚ) (cfg : PgCfg) (pts : ℕ) : ℕ :=
  pts * (⌊|auto_lower time cfg - auto_upper cfg| / p_resolution time⌋).toNat

/-- The auto-generated frequency grid
`np.linspace(ll, ul, pts_per_res * int(abs(ll-ul)/p_resolution))` (no explicit
`fbounds`, non-degenerate time span). -/
def auto_grid (time : List ℚ) (cfg : PgCfg) (pts : ℕ) : List ℚ :=
  linspace (auto_lower time cfg) (auto_upper cfg) (auto_num time cfg pts)

/-- `self.lsamp = 2 * (abs(lspower) / len(time)) ** 0.5`, with the
Lomb-Scargle pseudo-power at each grid frequency an oracle `power`. -/
noncomputable def lsamp_of (timeLen : ℕ) (power : ℚ → ℝ) (grid : List ℚ) : List ℝ :=
  grid.map (fun f => 2 * Real.sqrt (|power f| / (timeLen : ℝ)))

/-! ## numpy float semantics for the degenerate-span path (C7)

`max(time)`/`min(time)` of an ndarray are `np.float64`, so
`1.5 / 0.0` is `inf` with a runtime *warning*, not a raised error; the only
candidate exception on the degenerate path is `int()` of `nan`/`inf`. -/

/-- A numpy double restricted to the values the constructor path can build:
finite, `±inf`, `nan`. -/
inductive PFloat
  | fin (q : ℚ)
  | pinf
  | ninf
  | nan
deriving DecidableEq

/-- numpy subtraction. -/
def PFloat.sub : PFloat → PFloat → PFloat
  | .fin a, .fin b => .fin (a - b)
  | .pinf, .fin _ => .pinf
  | .ninf, .fin _ => .ninf
  | .fin _, .pinf => .ninf
  | .fin _, .ninf => .pinf
  | .pinf, .ninf => .pinf
  | .ninf, .pinf => .ninf
  | .pinf, .pinf => .nan
  | .ninf, .ninf => .nan
  | .nan, _ => .nan
  | _, .nan => .nan

/-- numpy `abs`. -/
def PFloat.abs : PFloat → PFloat
  | .fin a => .fin |a|
  | .nan => .nan
  | _ => .pinf

/-- numpy division, including division by zero (warning, not error) and the
indeterminate forms. -/
def PFloat.div : PFloat → PFloat → PFloat
  | .fin a, .fin b =>
    if b = 0 then (if a = 0 then .nan else if a > 0 then .pinf else .ninf)
    else .fin (a / b)
  | .fin _, .pinf => .fin 0
  | .fin _, .ninf => .fin 0
  | .pinf, .fin b => if b < 0 then .ninf else .pinf
  | .ninf, .fin b => if b < 0 then .pinf else .ninf
  | .nan, _ => .nan
  | _, _ => .nan

/-- Python `int()` of a float: truncation toward zero on finite values;
`OverflowError` on `±inf`, `ValueError` on `nan` (both modelled `none`). -/
def pyIntOfFloat : PFloat → Option ℤ
  | .fin q => some (Rat.floor q + if Rat.floor q < 0 ∧ (q : ℚ) ≠ Rat.floor q then 1 else 0)
  | _ => none

/-- The finite value of a `PFloat` (used only where finiteness is known). -/
def PFloat.toRatD : PFloat → ℚ → ℚ
  | .fin q, _ => q
  | _, d => d

/-- The grid-construction prefix of `Periodogram.__init__` on the `"auto"`
path, with numpy float semantics for the resolution: `p_resolution` is
`1.5/(max-min)` (`inf` when the span is zero), the bounds come from `fbounds`
when provided (else from the configuration), and the point count is
`pts * int(abs(ll－ul)/p_resolution)`.  Returns the grid, or the incidental
`int()` conversion error — there is no degeneracy check anywhere on this
path. -/
def pgram_init_grid (time : List ℚ) (fb : Option (ℚ × ℚ)) (cfg : PgCfg)
    (pts : ℕ) : Except String (List ℚ) :=
  let res : PFloat := PFloat.div (.fin (3 / 2)) (.fin (t_span time))
  let ll : PFloat := match fb with
    | some (l, _) => .fin l
    | none => if cfg.lowerIsResolution then res else .fin cfg.lower
  let ul : PFloat := match fb with
    | some (_, u) => .fin u
    | none => .fin cfg.upper
  match pyIntOfFloat (PFloat.div (PFloat.abs (PFloat.sub ll ul)) res) with
  | none => .error "cannot convert float to integer"
  | some k => .ok (linspace (ll.toRatD 0) (ul.toRatD 0) (pts * k.toNat))

/-! ## Concrete instances used by individual claims -/

/-- A deterministic fit oracle that returns exactly the hints it is started
from (an optimizer already at a point it deems converged). -/
def fitEcho : ℚ → ℚ → ℚ → SfFit := fun f a p => ⟨f, a, p, []⟩

/-- A small residual periodogram: grid `0..4`, flat unit amplitudes, both
fitted noise curves identically 1. -/
def pgC5 : Pgram := ⟨[0, 1, 2, 3, 4], [1, 1, 1, 1, 1], fun _ => 1, fun _ => 1⟩

/-- A stored frequency record `Frequency(f=2, a=2, p=0)`. -/
noncomputable def frC5 : Frequency := Frequency.init 2 2 0 0 sin_model none

/-- A record built with the cosine model (as the optimizer does when
`optimization.frequency_model_type = "cos"`). -/
noncomputable def frC3cos : Frequency := Frequency.init 0 1 0 0 cos_model none

/-- A record built with the default sine model. -/
noncomputable def frC3sin : Frequency := Frequency.init 1 1 0 0 sin_model none

/-- A stored frequency record with amplitude 2 for the uncertainty claim. -/
noncomputable def frC4 : Frequency := Frequency.init 1 2 0 0 sin_model none

/-- Concrete record used to witness C10: negative amplitude, out-of-range
phase. -/
noncomputable def frC10 : Frequency := Frequency.init 1 (-2) (37/10) 0 sin_model none

/-- A 3-point periodogram for the C1 witness. -/
def pgC1 : Pgram := ⟨[0, 1, 2], [5, 9, 7], fun _ => 1, fun _ => 1⟩

/-- Frequency grid for the C8 witness. -/
def lsfC8 : List ℚ := [0, 1, 2, 3, 4, 5, 6]

/-- Amplitudes for the C8 witness: a peak of 9 at index 3 with troughs walked
out to indices 1 and 5. -/
def lsaC8 : List ℚ := [5, 4, 3, 9, 3, 4, 5]

/-! ### Supporting lemmas about the sine model -/

/-- Flipping a negative amplitude while advancing the phase by half a cycle
leaves the sinusoid unchanged (exact real arithmetic). -/
theorem sin_model_neg_amp_half_phase (x f a p : ℝ) :
    sin_model x f (-a) (p + 1/2) = sin_model x f a p := by
  unfold sin_model
  have h : 2 * Real.pi * (f * x + (p + 1/2)) = 2 * Real.pi * (f * x + p) + Real.pi := by
    ring
  rw [h, Real.sin_add_pi]
  ring

/-- Reducing the phase modulo 1 leaves the sinusoid unchanged. -/
theorem sin_model_pyMod1 (x f a : ℝ) (p : ℚ) :
    sin_model x f a ((pyMod1 p : ℚ) : ℝ) = sin_model x f a ((p : ℚ) : ℝ) := by
  unfold sin_model pyMod1
  have h : 2 * Real.pi * (f * x + ((p - (⌊p⌋ : ℚ) : ℚ) : ℝ))
      = 2 * Real.pi * (f * x + (p : ℝ)) + (-⌊p⌋ : ℤ) * (2 * Real.pi) := by
    push_cast
    ring
  rw [h, Real.sin_add_int_mul_two_pi]

/-- The amplitude written by `adjust_params`. -/
theorem adjust_params_a (fr : Frequency) :
    fr.adjust_params.a = if fr.a < 0 then |fr.a| else fr.a := by
  simp [Frequency.adjust_params]

/-- The phase written by `adjust_params`. -/
theorem adjust_params_p (fr : Frequency) :
    fr.adjust_params.p =
      (if (if fr.a < 0 then fr.p + 1/2 else fr.p) > 1 ∨
          (if fr.a < 0 then fr.p + 1/2 else fr.p) < 0
       then pyMod1 (if fr.a < 0 then fr.p + 1/2 else fr.p)
       else (if fr.a < 0 then fr.p + 1/2 else fr.p)) := by
  simp [Frequency.adjust_params]

/-- The conditional phase wrap of `adjust_params` lands in `[0, 1]`. -/
theorem pyMod1_wrap_mem (p : ℚ) :
    0 ≤ (if p > 1 ∨ p < 0 then pyMod1 p else p) ∧
      (if p > 1 ∨ p < 0 then pyMod1 p else p) ≤ 1 := by
  by_cases h : p > 1 ∨ p < 0
  · simp only [h, if_true]
    have h0 : pyMod1 p = Int.fract p := rfl
    rw [h0]
    exact ⟨Int.fract_nonneg p, (Int.fract_lt_one p).le⟩
  · simp only [h, if_false]
    push_neg at h
    exact ⟨h.2, h.1⟩

/-- The conditional amplitude-flip step preserves the sinusoid. -/
theorem sin_model_flip_step (f a p : ℚ) (t : ℝ) :
    sin_model t (f : ℝ) (((if a < 0 then |a| else a) : ℚ) : ℝ)
        (((if a < 0 then p + 1/2 else p) : ℚ) : ℝ)
      = sin_model t (f : ℝ) (a : ℝ) (p : ℝ) := by
  by_cases hneg : a < 0
  · simp only [hneg, if_true]
    have habs : ((|a| : ℚ) : ℝ) = -(a : ℝ) := by
      rw [abs_of_neg hneg]; push_cast; ring
    have hph : ((p + 1/2 : ℚ) : ℝ) = (p : ℝ) + 1/2 := by push_cast; ring
    rw [habs, hph]
    exact sin_model_neg_amp_half_phase t (f : ℝ) (a : ℝ) (p : ℝ)
  · simp [hneg]

/-- The conditional phase-wrap step preserves the sinusoid. -/
theorem sin_model_wrap_step (f a p : ℚ) (t : ℝ) :
    sin_model t (f : ℝ) (a : ℝ)
        (((if p > 1 ∨ p < 0 then pyMod1 p else p) : ℚ) : ℝ)
      = sin_model t (f : ℝ) (a : ℝ) (p : ℝ) := by
  by_cases h : p > 1 ∨ p < 0
  · simp only [h, if_true]
    exact sin_model_pyMod1 t (f : ℝ) (a : ℝ) p
  · simp [h]

/-- C10. For every `Frequency` using the sine model, `adjust_params`
establishes `a ≥ 0` and `p ∈ [0, 1]`, leaves the represented sinusoid
mathematically unchanged at every time (exact real arithmetic), and keeps
`f`, the stored initial values `f0, a0, p0`, `t0` and the index `n`
untouched. -/
theorem c10_adjust_params (fr : Frequency) (hm : fr.model_function = sin_model) :
    0 ≤ fr.adjust_params.a ∧
    (0 ≤ fr.adjust_params.p ∧ fr.adjust_params.p ≤ 1) ∧
    (∀ t : ℝ, fr.adjust_params.evaluate_model t = fr.evaluate_model t) ∧
    fr.adjust_params.f = fr.f ∧ fr.adjust_params.f0 = fr.f0 ∧
    fr.adjust_params.a0 = fr.a0 ∧ fr.adjust_params.p0 = fr.p0 ∧
    fr.adjust_params.t0 = fr.t0 ∧ fr.adjust_params.n = fr.n := by
  refine ⟨?_, ?_, ?_, rfl, rfl, rfl, rfl, rfl, rfl⟩
  · rw [adjust_params_a]
    by_cases hneg : fr.a < 0
    · simp [hneg]
    · simp only [hneg, if_false]
      exact le_of_not_lt hneg
  · rw [adjust_params_p]
    exact pyMod1_wrap_mem _
  · intro t
    have hmf : fr.adjust_params.model_function = fr.model_function := rfl
    unfold Frequency.evaluate_model
    rw [hmf, hm]
    have hff : fr.adjust_params.f = fr.f := rfl
    rw [hff, adjust_params_a, adjust_params_p]
    rw [sin_model_wrap_step, sin_model_flip_step]

/-- Witness for C10 at `f=1, a=-2, p=3.7`. -/
theorem c10_adjust_params_witness :
    frC10.model_function = sin_model ∧
    (0 ≤ frC10.adjust_params.a ∧
     (0 ≤ frC10.adjust_params.p ∧ frC10.adjust_params.p ≤ 1) ∧
     (∀ t : ℝ, frC10.adjust_params.evaluate_model t = frC10.evaluate_model t) ∧
     frC10.adjust_params.f = frC10.f ∧ frC10.adjust_params.f0 = frC10.f0 ∧
     frC10.adjust_params.a0 = frC10.a0 ∧ frC10.adjust_params.p0 = frC10.p0 ∧
     frC10.adjust_params.t0 = frC10.t0 ∧ frC10.adjust_params.n = frC10.n) :=
  ⟨rfl, c10_adjust_params frC10 rfl⟩

/-! ## C2: the single-frequency phase-stability retry loop -/

/-- Whatever `sfo_loop` returns is the result of the *first* fit: the hints
never change across retries, so retries cannot alter the outcome. -/
theorem sfo_loop_result (check : Bool) (fit : ℚ → ℚ → ℚ → SfFit) (f0 a0 p0 : ℚ) :
    ∀ (fuel : ℕ) (ig2 : ℚ) (r : ℚ × ℚ × ℚ × List ℚ),
      sfo_loop check fit f0 a0 p0 fuel ig2 = some r →
      r = ((fit f0 a0 p0).f, (fit f0 a0 p0).a, (fit f0 a0 p0).p,
           (fit f0 a0 p0).model) := by
  intro fuel
  induction fuel with
  | zero =>
    intro ig2 r h
    exact absurd h (by simp [sfo_loop])
  | succ m ih =>
    intro ig2 r h
    unfold sfo_loop at h
    by_cases hc : (check && decide (|(fit f0 a0 p0).p - ig2| < 1/10)) = true
    · rw [if_pos hc] at h
      exact ih _ r h
    · rw [if_neg hc] at h
      exact (Option.some.inj h).symm

/-- C2. The retry loop never changes the fit: for every oracle, fuel and
reference state, a returned result equals the first fit's values (first
conjunct) — the perturbation lands only in the stop-test reference, not in
the optimizer's starting point.  Evaluation at a deterministic fit returning
its hints: with the check enabled the loop retries once (fuel 1 exhausts),
then returns fitted phase `1/2`, which has moved `0 < 0.1` from the actual
initial guess `1/2`; with the check disabled the first fit returns
immediately. -/
theorem c2_phase_retry_code_eval :
    (∀ (check : Bool) (fit : ℚ → ℚ → ℚ → SfFit) (f0 a0 p0 : ℚ) (fuel : ℕ)
        (r : ℚ × ℚ × ℚ × List ℚ),
        single_frequency_optimization check fit f0 a0 p0 fuel = some r →
        r = ((fit f0 a0 p0).f, (fit f0 a0 p0).a, (fit f0 a0 p0).p,
             (fit f0 a0 p0).model)) ∧
    single_frequency_optimization true fitEcho 1 1 (1/2) 1 = none ∧
    single_frequency_optimization true fitEcho 1 1 (1/2) 2 = some (1, 1, 1/2, []) ∧
    |(1 : ℚ)/2 - 1/2| < 1/10 ∧
    single_frequency_optimization false fitEcho 1 1 (1/2) 1 = some (1, 1, 1/2, []) := by
  refine ⟨?_, ?_, ?_, ?_, ?_⟩
  · intro check fit f0 a0 p0 fuel r h
    exact sfo_loop_result check fit f0 a0 p0 fuel p0 r h
  · with_unfolding_all rfl
  · with_unfolding_all rfl
  · norm_num
  · with_unfolding_all rfl

/-! ## C5: significance scores before and after `compute_significances` -/

/-- What `compute_significances` writes on each stored record: the slf and
poly ratios land in their declared attributes, the box ratio lands in the new
attribute `sig_box`, and the declared box-average score `sig_avg` is left
untouched. -/
theorem compute_significances_fields (flist : List Frequency) (pg : Pgram)
    (i : ℕ) (hi : i < flist.length) :
    ∃ fr1, (compute_significances flist pg).get? i = some fr1 ∧
      fr1.sig_slf = pg.sig_slf (flist.get ⟨i, hi⟩).f (flist.get ⟨i, hi⟩).a ∧
      fr1.sig_box = some (pg.sig_box (flist.get ⟨i, hi⟩).f (flist.get ⟨i, hi⟩).a) ∧
      fr1.sig_poly = pg.sig_poly (flist.get ⟨i, hi⟩).f (flist.get ⟨i, hi⟩).a ∧
      fr1.sig_avg = (flist.get ⟨i, hi⟩).sig_avg := by
  have hget : (compute_significances flist pg).get? i
      = some { flist.get ⟨i, hi⟩ with
          sig_slf := pg.sig_slf (flist.get ⟨i, hi⟩).f (flist.get ⟨i, hi⟩).a
          sig_box := some (pg.sig_box (flist.get ⟨i, hi⟩).f (flist.get ⟨i, hi⟩).a)
          sig_poly := pg.sig_poly (flist.get ⟨i, hi⟩).f (flist.get ⟨i, hi⟩).a } := by
    unfold compute_significances
    rw [List.get?_map, List.get?_eq_get hi]
    rfl
  exact ⟨_, hget, rfl, rfl, rfl, rfl⟩

/-- C5. In general (first conjunct): for every record list and residual
periodogram, `compute_significances` leaves each record's zero-initialised
box-average attribute `sig_avg` untouched and stores the box ratio in the new
attribute `sig_box` instead, while `sig_slf` and `sig_poly` do receive their
ratios.  Evaluation at a concrete record (`a = 2`, unit noise everywhere):
at construction the three declared scores are zero and `sig_box` does not
exist; afterwards the slf/poly scores hold amplitude/noise = 2 and the box
ratio 2 sits only in `sig_box`, with `sig_avg` still 0 ≠ 2. -/
theorem c5_sig_box_attribute_eval :
    (∀ (flist : List Frequency) (pg : Pgram) (i : ℕ) (hi : i < flist.length),
      ∃ fr1, (compute_significances flist pg).get? i = some fr1 ∧
        fr1.sig_box = some (pg.sig_box (flist.get ⟨i, hi⟩).f (flist.get ⟨i, hi⟩).a) ∧
        fr1.sig_avg = (flist.get ⟨i, hi⟩).sig_avg) ∧
    frC5.sig_avg = 0 ∧ frC5.sig_poly = 0 ∧ frC5.sig_slf = 0 ∧ frC5.sig_box = none ∧
    ((compute_significances [frC5] pgC5).headD frC5).sig_slf = 2 ∧
    ((compute_significances [frC5] pgC5).headD frC5).sig_poly = 2 ∧
    ((compute_significances [frC5] pgC5).headD frC5).sig_box = some 2 ∧
    ((compute_significances [frC5] pgC5).headD frC5).sig_avg = 0 ∧
    (2 : ℚ) ≠ 0 := by
  refine ⟨?_, rfl, rfl, rfl, rfl, ?_, ?_, ?_, ?_, by norm_num⟩
  · intro flist pg i hi
    obtain ⟨fr1, hget, -, hbox, -, havg⟩ := compute_significances_fields flist pg i hi
    exact ⟨fr1, hget, hbox, havg⟩
  · with_unfolding_all rfl
  · with_unfolding_all rfl
  · with_unfolding_all rfl
  · with_unfolding_all rfl

/-! ## C7: no degeneracy check in the spectral-transform constructor -/

/-- C7. Evaluation of the constructor's grid path on a degenerate series
(`time = [1, 1]`: two points, zero span).  With explicit finite bounds the
constructor raises nothing and returns an *empty* grid (`p_resolution` is
`inf`, so the point count is `int(1/inf) = 0`); with configured bounds
(`lower_limit = "resolution"`) the only failure is an incidental
`int()`-of-`nan` conversion error.  No descriptive degeneracy error exists on
either path. -/
theorem c7_degenerate_no_error_eval :
    t_span [1, 1] = 0 ∧
    pgram_init_grid [1, 1] (some (0, 1)) ⟨true, 0, 1⟩ 20 = .ok [] ∧
    pgram_init_grid [1, 1] none ⟨true, 0, 100⟩ 20 =
      .error "cannot convert float to integer" := by
  refine ⟨?_, ?_, ?_⟩
  · with_unfolding_all rfl
  · with_unfolding_all rfl
  · with_unfolding_all rfl

/-! ## C9: the auto-grid upper bound ignores the Nyquist frequency -/

/-- C9. Evaluation of the auto-generated grid for `time = [0, 10]` under a
configuration with `upper_limit = 1`: the grid tops out at the configured
constant 1 — not at the approximate Nyquist frequency `2/(2·10) = 1/10` the
constructor computed from the series — so the upper bound is the configuration
value verbatim and `p_approx_nyquist_f` is never consulted (here the grid even
extends a factor of 10 beyond Nyquist). -/
theorem c9_auto_upper_bound_eval :
    auto_grid [0, 10] ⟨true, 0, 1⟩ 1 = [3/20, 29/80, 23/40, 63/80, 1] ∧
    auto_upper ⟨true, 0, 1⟩ = 1 ∧
    p_approx_nyquist_f [0, 10] = 1/10 ∧
    (1 : ℚ) ≠ 1/10 := by
  refine ⟨?_, rfl, ?_, by norm_num⟩
  · with_unfolding_all rfl
  · with_unfolding_all rfl

/-! ## C6: grid invariants of the spectral transform -/

/-- C6 counterexample.  `time = [0, 1]` is sorted with span `1 > 0` and 2
points, and under the spec's default bound policy (lower bound = resolution
unit `3/2`, upper bound = approximate Nyquist frequency `1`) the constructed
frequency grid is *empty*: `pts * int(|3/2 - 1| / (3/2)) = 0` points, so the
"grid and amplitude sequences of equal length at least 2" part of the claim
fails. -/
theorem c6_grid_counterexample :
    ([0, 1] : List ℚ).length = 2 ∧ 0 < t_span [0, 1] ∧
    p_approx_nyquist_f [0, 1] = 1 ∧
    auto_grid [0, 1] ⟨true, 0, 1⟩ 20 = [] ∧
    ¬ 2 ≤ (auto_grid [0, 1] ⟨true, 0, 1⟩ 20).length := by
  refine ⟨rfl, ?_, ?_, ?_, ?_⟩
  · with_unfolding_all decide
  · with_unfolding_all rfl
  · with_unfolding_all rfl
  · have h : auto_grid [0, 1] ⟨true, 0, 1⟩ 20 = [] := by with_unfolding_all rfl
    rw [h]
    decide

/-! ## C3: `mf_model` versus the records' own models -/

/-- C3 counterexample.  A collection holding one record built with the cosine
model: `mf_model` evaluates the *sine* model at the record's parameters
(`sin(0) = 0` at `t = 0`), while the record's own `evaluate_model` gives
`cos(0) = 1`, so the claimed equality fails already for `N = 1`, `t = 0`,
`zp = 0`. -/
theorem c3_mf_model_counterexample :
    mf_model_at [frC3cos] 0 0 ≠
      List.foldl (fun y fr => y + fr.evaluate_model 0) 0 [frC3cos] + 0 := by
  simp only [mf_model_at, Frequency.evaluate_model, frC3cos, Frequency.init,
    List.foldl_cons, List.foldl_nil, sin_model, cos_model]
  push_cast
  simp [Real.sin_zero, Real.cos_zero]

/-- C3 amended.  When every stored record uses the sine model (the default for
records produced by the prewhitening loop under `frequency_model_type="sin"`),
`mf_model` at any time and offset equals the left-to-right sum of each
record's own `evaluate_model` plus the offset, with exact equality in the
embedding's exact arithmetic. -/
theorem c3_mf_model_sum (flist : List Frequency) (t zp : ℝ)
    (h : ∀ fr ∈ flist, fr.model_function = sin_model) :
    mf_model_at flist t zp =
      List.foldl (fun y fr => y + fr.evaluate_model t) 0 flist + zp := by
  unfold mf_model_at
  congr 1
  apply List.foldl_ext
  intro y fr hfr
  rw [Frequency.evaluate_model, h fr hfr]

/-- Witness for the amended C3 at a one-record sine collection, `t = 0`,
`zp = 2`. -/
theorem c3_mf_model_sum_witness :
    (∀ fr ∈ [frC3sin], fr.model_function = sin_model) ∧
    mf_model_at [frC3sin] 0 2 =
      List.foldl (fun y fr => y + fr.evaluate_model 0) 0 [frC3sin] + 2 := by
  have h : ∀ fr ∈ [frC3sin], fr.model_function = sin_model := by
    intro fr hfr
    rw [List.mem_singleton] at hfr
    rw [hfr]
    rfl
  exact ⟨h, c3_mf_model_sum [frC3sin] 0 2 h⟩

/-! ## C4: parameter uncertainty propagation -/

/-- C4. `compute_parameter_uncertainties` keeps the record count and writes,
for the `i`-th stored record with amplitude `a`:
`sigma_f = sqrt(6/N_eff)·σ/(π·T·a)`, `sigma_a = sqrt(2/N_eff)·σ` (independent
of the record's parameters), and `sigma_p = sqrt(2/N_eff)·σ/a`, where `N_eff`
is the sign-change count of the residual data, `σ` its `np.std`, and `T` its
time span; the record's `f`, `a`, `p` are untouched. -/
theorem c4_parameter_uncertainties (flist : List Frequency) (time data : List ℚ)
    (i : ℕ) (hi : i < flist.length) :
    (compute_parameter_uncertainties flist time data).length = flist.length ∧
    ∃ fr1, (compute_parameter_uncertainties flist time data).get? i = some fr1 ∧
      fr1.sigma_f = some (Real.sqrt (6 / (measure_N_eff data : ℝ)) * lcStd data /
          (Real.pi * (t_span time : ℝ) * ((flist.get ⟨i, hi⟩).a : ℝ))) ∧
      fr1.sigma_a = some (Real.sqrt (2 / (measure_N_eff data : ℝ)) * lcStd data) ∧
      fr1.sigma_p = some (Real.sqrt (2 / (measure_N_eff data : ℝ)) * lcStd data /
          ((flist.get ⟨i, hi⟩).a : ℝ)) ∧
      fr1.f = (flist.get ⟨i, hi⟩).f ∧ fr1.a = (flist.get ⟨i, hi⟩).a ∧
      fr1.p = (flist.get ⟨i, hi⟩).p := by
  have hsq6 : ((6 : ℝ) / (measure_N_eff data : ℝ)) ^ ((1 : ℝ) / 2)
      = Real.sqrt (6 / (measure_N_eff data : ℝ)) := by
    rw [Real.sqrt_eq_rpow]
  have hsq2 : ((2 : ℝ) / (measure_N_eff data : ℝ)) ^ ((1 : ℝ) / 2)
      = Real.sqrt (2 / (measure_N_eff data : ℝ)) := by
    rw [Real.sqrt_eq_rpow]
  have hget : (compute_parameter_uncertainties flist time data).get? i
      = some { flist.get ⟨i, hi⟩ with
          sigma_f := some (sigma_f_formula time data (flist.get ⟨i, hi⟩).a)
          sigma_a := some (sigma_a_formula data)
          sigma_p := some (sigma_p_formula data (flist.get ⟨i, hi⟩).a) } := by
    unfold compute_parameter_uncertainties
    rw [List.get?_map, List.get?_eq_get hi]
    rfl
  refine ⟨List.length_map _ _, _, hget, ?_, ?_, ?_, rfl, rfl, rfl⟩
  · show some (sigma_f_formula time data (flist.get ⟨i, hi⟩).a) = _
    rw [sigma_f_formula, hsq6]
  · show some (sigma_a_formula data) = _
    rw [sigma_a_formula, hsq2]
  · show some (sigma_p_formula data (flist.get ⟨i, hi⟩).a) = _
    rw [sigma_p_formula, hsq2]

/-- Witness for C4: one record of amplitude 2, residual
`data = [1,-1,1,-1]` over `time = [0,1,2,3]` (3 sign changes, `np.std` 1,
span 3). -/
theorem c4_parameter_uncertainties_witness :
    (0 : ℕ) < ([frC4] : List Frequency).length ∧
    ((compute_parameter_uncertainties [frC4] [0,1,2,3] [1,-1,1,-1]).length = 1 ∧
     ∃ fr1, (compute_parameter_uncertainties [frC4] [0,1,2,3] [1,-1,1,-1]).get? 0
          = some fr1 ∧
       fr1.sigma_f = some (Real.sqrt (6 / (measure_N_eff [1,-1,1,-1] : ℝ)) *
           lcStd [1,-1,1,-1] / (Real.pi * (t_span [0,1,2,3] : ℝ) * (frC4.a : ℝ))) ∧
       fr1.sigma_a = some (Real.sqrt (2 / (measure_N_eff [1,-1,1,-1] : ℝ)) *
           lcStd [1,-1,1,-1]) ∧
       fr1.sigma_p = some (Real.sqrt (2 / (measure_N_eff [1,-1,1,-1] : ℝ)) *
           lcStd [1,-1,1,-1] / (frC4.a : ℝ)) ∧
       fr1.f = frC4.f ∧ fr1.a = frC4.a ∧ fr1.p = frC4.p) :=
  ⟨by norm_num,
   c4_parameter_uncertainties [frC4] [0,1,2,3] [1,-1,1,-1] 0 (by norm_num)⟩

/-- `linspace` makes exactly `n` points. -/
theorem linspace_length (a b : ℚ) (n : ℕ) : (linspace a b n).length = n := by
  unfold linspace
  by_cases h0 : n = 0
  · rw [if_pos h0, h0]
    rfl
  · by_cases h1 : n = 1
    · rw [if_neg h0, if_pos h1, h1]
      rfl
    · rw [if_neg h0, if_neg h1, List.length_map, List.length_range]

/-- `linspace a b n` is strictly increasing (exact arithmetic) whenever
`a < b` and `n ≥ 2`. -/
theorem linspace_chain (a b : ℚ) (n : ℕ) (hab : a < b) (hn : 2 ≤ n) :
    List.Chain' (· < ·) (linspace a b n) := by
  unfold linspace
  have h0 : ¬ n = 0 := by omega
  have h1 : ¬ n = 1 := by omega
  rw [if_neg h0, if_neg h1, List.chain'_map]
  obtain ⟨m, rfl⟩ : ∃ m, n = m + 1 := ⟨n - 1, by omega⟩
  rw [List.chain'_range_succ]
  intro i him
  have hd : 0 < (b - a) / (((m + 1 : ℕ) : ℚ) - 1) := by
    apply div_pos (sub_pos.2 hab)
    have : (1 : ℚ) < ((m + 1 : ℕ) : ℚ) := by
      push_cast
      have : (1 : ℕ) < m + 1 := by omega
      exact_mod_cast this
    linarith
  have hi : ((i : ℚ)) < ((i + 1 : ℕ) : ℚ) := by
    push_cast
    linarith
  have := mul_lt_mul_of_pos_right hi hd
  linarith

/-- C6 amended.  For *every* input series, configuration, point density and
power oracle — including the degenerate inputs of the counterexample — the
amplitude sequence of the auto-grid periodogram has exactly the grid's length
and is element-wise non-negative (first two conjuncts, unconditional); and
whenever the auto-path lower bound lies below the upper bound and the
computed point count is at least 2, the grid is additionally strictly
increasing with at least 2 points (third conjunct).  The original claim's
unconditional "strictly increasing, length at least 2" fails: see the
counterexample, where a 2-point series yields an empty grid. -/
theorem c6_grid_amended (time : List ℚ) (cfg : PgCfg) (pts : ℕ) (power : ℚ → ℝ) :
    (lsamp_of time.length power (auto_grid time cfg pts)).length
        = (auto_grid time cfg pts).length ∧
    (∀ x ∈ lsamp_of time.length power (auto_grid time cfg pts), 0 ≤ x) ∧
    (auto_lower time cfg < auto_upper cfg → 2 ≤ auto_num time cfg pts →
      List.Chain' (· < ·) (auto_grid time cfg pts) ∧
      2 ≤ (auto_grid time cfg pts).length) := by
  refine ⟨List.length_map _ _, ?_, ?_⟩
  · intro x hx
    unfold lsamp_of at hx
    obtain ⟨f, -, rfl⟩ := List.mem_map.1 hx
    have := Real.sqrt_nonneg (|power f| / (time.length : ℝ))
    linarith
  · intro hlt hn
    constructor
    · exact linspace_chain _ _ _ hlt hn
    · rw [auto_grid, linspace_length]
      exact hn

/-- Witness for the amended C6 (the theorem is hypothesis-free; this records a
concrete instantiation): the unconditional conjuncts at the counterexample's
degenerate input `time = [0, 1]` (empty grid), and the conditional conjunct
discharged at `time = [0, 10]`, lower bound = resolution unit `3/20`, upper
bound 1, one point per resolution element (5 grid points). -/
theorem c6_grid_amended_witness :
    ((lsamp_of 2 (fun _ => 0) (auto_grid [0, 1] ⟨true, 0, 1⟩ 20)).length
        = (auto_grid [0, 1] ⟨true, 0, 1⟩ 20).length ∧
     (∀ x ∈ lsamp_of 2 (fun _ => 0) (auto_grid [0, 1] ⟨true, 0, 1⟩ 20), 0 ≤ x)) ∧
    (auto_lower [0, 10] ⟨true, 0, 1⟩ < auto_upper ⟨true, 0, 1⟩) ∧
    2 ≤ auto_num [0, 10] ⟨true, 0, 1⟩ 1 ∧
    (List.Chain' (· < ·) (auto_grid [0, 10] ⟨true, 0, 1⟩ 1) ∧
     2 ≤ (auto_grid [0, 10] ⟨true, 0, 1⟩ 1).length) := by
  have h1 : auto_lower [0, 10] ⟨true, 0, 1⟩ < auto_upper ⟨true, 0, 1⟩ := by
    have e : auto_lower [0, 10] ⟨true, 0, 1⟩ = 3/20 := by with_unfolding_all rfl
    rw [e]
    show (3 : ℚ)/20 < 1
    norm_num
  have h2 : 2 ≤ auto_num [0, 10] ⟨true, 0, 1⟩ 1 := by
    have e : auto_num [0, 10] ⟨true, 0, 1⟩ 1 = 5 := by with_unfolding_all rfl
    omega
  have hdeg := c6_grid_amended [0, 1] ⟨true, 0, 1⟩ 20 (fun _ => 0)
  exact ⟨⟨hdeg.1, hdeg.2.1⟩, h1, h2,
    (c6_grid_amended [0, 10] ⟨true, 0, 1⟩ 1 (fun _ => 0)).2.2 h1 h2⟩

/-! ## Supporting list lemmas for peak selection -/

/-- `getD` agrees with indexing below the length. -/
theorem getD_eq_get_of_lt {α : Type} (l : List α) (d : α) (i : ℕ)
    (h : i < l.length) : l.getD i d = l[i] := by
  simp [List.getD_eq_getElem?_getD, List.getElem?_eq_getElem h]

/-- Reading the working mask `map step (range n)` below `n`. -/
theorem rangeMap_getD (n : ℕ) (step : ℕ → Bool) (i : ℕ) (hi : i < n) :
    ((List.range n).map step).getD i false = step i := by
  have h : i < ((List.range n).map step).length := by
    rw [List.length_map, List.length_range]; exact hi
  rw [getD_eq_get_of_lt _ _ _ h]
  simp

/-- The all-false test `(~working_mask).all()` over `map step (range n)`. -/
theorem rangeMap_all_false_iff (n : ℕ) (step : ℕ → Bool) :
    ((List.range n).map step).all (fun b => !b) = true ↔
      ∀ i < n, step i = false := by
  rw [List.all_eq_true]
  constructor
  · intro h i hi
    have hmem : step i ∈ (List.range n).map step :=
      List.mem_map_of_mem _ (List.mem_range.2 hi)
    have := h _ hmem
    simpa using this
  · intro h b hb
    obtain ⟨i, hi, rfl⟩ := List.mem_map.1 hb
    simp [h i (List.mem_range.1 hi)]

/-- Membership in the included-index list of a boolean mask. -/
theorem maskIdxs_mem (n : ℕ) (m : List Bool) (i : ℕ) :
    i ∈ maskIdxs n m ↔ i < n ∧ m.getD i false = true := by
  unfold maskIdxs
  rw [List.mem_filter, List.mem_range]

/-- `argmaxIdx` of a nonempty list is in range. -/
theorem argmaxIdx_lt (l : List ℚ) (h : l ≠ []) : argmaxIdx l < l.length := by
  induction l with
  | nil => exact absurd rfl h
  | cons x xs ih =>
    unfold argmaxIdx
    by_cases hall : xs.all (fun y => decide (y ≤ x)) = true
    · rw [if_pos hall]
      simp
    · rw [if_neg hall]
      have hxs : xs ≠ [] := by
        intro hn
        subst hn
        exact hall rfl
      have := ih hxs
      simp only [List.length_cons]
      omega

/-- Every entry is bounded by the entry at `argmaxIdx`. -/
theorem argmaxIdx_max (l : List ℚ) (j : ℕ) (hj : j < l.length) :
    l.getD j 0 ≤ l.getD (argmaxIdx l) 0 := by
  induction l generalizing j with
  | nil => simp at hj
  | cons x xs ih =>
    unfold argmaxIdx
    by_cases hall : xs.all (fun y => decide (y ≤ x)) = true
    · rw [if_pos hall]
      match j with
      | 0 => simp
      | k + 1 =>
        have hk : k < xs.length := by
          simp only [List.length_cons] at hj
          omega
        have hmem : xs.getD k 0 ∈ xs := by
          rw [getD_eq_get_of_lt _ _ _ hk]
          exact List.getElem_mem hk
        have := List.all_eq_true.1 hall _ hmem
        simpa using this
    · rw [if_neg hall]
      have hxs : xs ≠ [] := by
        intro hn
        subst hn
        exact hall rfl
      match j with
      | 0 =>
        simp only [List.getD_cons_zero, List.getD_cons_succ]
        obtain ⟨y, hy, hyx⟩ : ∃ y ∈ xs, ¬ (y ≤ x) := by
          by_contra hno
          push_neg at hno
          exact hall (List.all_eq_true.2 (fun z hz => by simpa using hno z hz))
        obtain ⟨k, hk, rfl⟩ := List.getElem_of_mem hy
        have h1 : xs.getD k 0 ≤ xs.getD (argmaxIdx xs) 0 := ih k hk
        rw [getD_eq_get_of_lt _ _ _ hk] at h1
        have h2 := lt_of_not_le hyx
        linarith
      | k + 1 =>
        simp only [List.getD_cons_succ]
        exact ih k (by simp only [List.length_cons] at hj; omega)

/-- Reading a mapped list below the length. -/
theorem map_getD_of_lt {α β : Type} (l : List α) (g : α → β) (k : ℕ)
    (h : k < l.length) (d : α) (d2 : β) :
    (l.map g).getD k d2 = g (l.getD k d) := by
  rw [getD_eq_get_of_lt _ _ _ (by rw [List.length_map]; exact h),
    getD_eq_get_of_lt _ _ _ h]
  simp

/-- `highest_ampl` on a mask with at least one included index returns the
(frequency, amplitude) pair of an included index of maximal amplitude. -/
theorem highest_ampl_shape (lsf lsa : List ℚ) (wm : List Bool)
    (hne : ∃ i, i < lsf.length ∧ wm.getD i false = true) :
    ∃ i, i < lsf.length ∧ wm.getD i false = true ∧
      highest_ampl lsf lsa wm = (some (lsf.getD i 0), some (lsa.getD i 0)) ∧
      ∀ j, j < lsf.length → wm.getD j false = true →
        lsa.getD j 0 ≤ lsa.getD i 0 := by
  obtain ⟨i0, hi0, hm0⟩ := hne
  have hidx0 : i0 ∈ maskIdxs lsf.length wm := (maskIdxs_mem _ _ _).2 ⟨hi0, hm0⟩
  have hidxne : maskIdxs lsf.length wm ≠ [] := List.ne_nil_of_mem hidx0
  have hfane : (maskIdxs lsf.length wm).map (fun i => lsa.getD i 0) ≠ [] := by
    intro hmapnil
    exact hidxne (List.map_eq_nil.1 hmapnil)
  have hlenfa : ((maskIdxs lsf.length wm).map (fun i => lsa.getD i 0)).length
      = (maskIdxs lsf.length wm).length := List.length_map _ _
  have hklt : argmaxIdx ((maskIdxs lsf.length wm).map (fun i => lsa.getD i 0))
      < ((maskIdxs lsf.length wm).map (fun i => lsa.getD i 0)).length :=
    argmaxIdx_lt _ hfane
  have hklt2 : argmaxIdx ((maskIdxs lsf.length wm).map (fun i => lsa.getD i 0))
      < (maskIdxs lsf.length wm).length := by rwa [hlenfa] at hklt
  have histarmem : (maskIdxs lsf.length wm).getD
      (argmaxIdx ((maskIdxs lsf.length wm).map (fun i => lsa.getD i 0))) 0
      ∈ maskIdxs lsf.length wm := by
    rw [getD_eq_get_of_lt _ _ _ hklt2]
    exact List.getElem_mem hklt2
  obtain ⟨histarlt, histarmask⟩ := (maskIdxs_mem _ _ _).1 histarmem
  refine ⟨_, histarlt, histarmask, ?_, ?_⟩
  · unfold highest_ampl
    rw [if_neg (by
      intro hlen0
      exact hfane (List.length_eq_zero.1 hlen0))]
    rw [map_getD_of_lt _ _ _ hklt2 0 0, map_getD_of_lt _ _ _ hklt2 0 0]
  · intro j hj hmj
    have hjmem : j ∈ maskIdxs lsf.length wm := (maskIdxs_mem _ _ _).2 ⟨hj, hmj⟩
    obtain ⟨kj, hkj, hkjeq⟩ := List.getElem_of_mem hjmem
    have hfa_kj : ((maskIdxs lsf.length wm).map (fun i => lsa.getD i 0)).getD kj 0
        = lsa.getD j 0 := by
      rw [map_getD_of_lt _ _ _ hkj 0 0, getD_eq_get_of_lt _ _ _ hkj, hkjeq]
    have hb := argmaxIdx_max ((maskIdxs lsf.length wm).map (fun i => lsa.getD i 0))
      kj (by rwa [hlenfa])
    rw [hfa_kj] at hb
    rw [map_getD_of_lt _ _ _ hklt2 0 0] at hb
    exact hb

/-- `select_peak` returns the null pair exactly when the working mask is
all-false. -/
theorem select_peak_null_iff (pg : Pgram) (method : PeakMethod) (minSig : ℚ)
    (mask : List Bool) :
    select_peak pg method minSig mask = (none, none) ↔
      ∀ i < pg.lsfreq.length, select_step pg method minSig mask i = false := by
  unfold select_peak
  by_cases h : ((List.range pg.lsfreq.length).map
      (select_step pg method minSig mask)).all (fun b => !b) = true
  · rw [if_pos h]
    simp only [true_iff]
    exact (rangeMap_all_false_iff _ _).1 h
  · rw [if_neg h]
    have hne : ∃ i, i < pg.lsfreq.length ∧
        select_step pg method minSig mask i = true := by
      by_contra hno
      push_neg at hno
      exact h ((rangeMap_all_false_iff _ _).2 (fun i hi => by
        have := hno i hi
        revert this
        cases select_step pg method minSig mask i <;> simp))
    obtain ⟨i0, hi0, hs0⟩ := hne
    have hwm : ((List.range pg.lsfreq.length).map
        (select_step pg method minSig mask)).getD i0 false = true := by
      rw [rangeMap_getD _ _ _ hi0]
      exact hs0
    obtain ⟨istar, _, _, heq, -⟩ :=
      highest_ampl_shape pg.lsfreq pg.lsamp _ ⟨i0, hi0, hwm⟩
    rw [heq]
    constructor
    · intro hcontra
      exact absurd (congrArg Prod.fst hcontra) (by simp)
    · intro hall
      exact absurd (hall i0 hi0) (by rw [hs0]; simp)

/-- C1. For every periodogram, `select_peak` returns `(None, None)` iff the
caller mask is all-false or the method is `slf`/`poly` and no mask-included
grid point has significance strictly above `min_prov_sig`; and with method
`highest` and at least one included point it returns the grid
frequency/amplitude of an included point of maximal amplitude. -/
theorem c1_select_peak (pg : Pgram) (method : PeakMethod) (minSig : ℚ)
    (mask : List Bool) (hmask : mask.length = pg.lsfreq.length) :
    (select_peak pg method minSig mask = (none, none) ↔
      ((∀ i < pg.lsfreq.length, mask.getD i true = false) ∨
       ((method = .slf ∨ method = .poly) ∧
        ∀ i < pg.lsfreq.length, mask.getD i true = true →
          pg.sigAt method i ≤ minSig))) ∧
    (method = .highest →
      (∃ i, i < pg.lsfreq.length ∧ mask.getD i true = true) →
      ∃ i, i < pg.lsfreq.length ∧ mask.getD i true = true ∧
        select_peak pg method minSig mask
          = (some (pg.lsfreq.getD i 0), some (pg.lsamp.getD i 0)) ∧
        ∀ j, j < pg.lsfreq.length → mask.getD j true = true →
          pg.lsamp.getD j 0 ≤ pg.lsamp.getD i 0) := by
  constructor
  · rw [select_peak_null_iff]
    constructor
    · intro hall
      cases method with
      | highest =>
        left
        intro i hi
        have h := hall i hi
        unfold select_step at h
        simpa using h
      | slf =>
        right
        refine ⟨Or.inl rfl, ?_⟩
        intro i hi hm
        have h := hall i hi
        unfold select_step at h
        rw [hm] at h
        simp only [Bool.true_and, decide_eq_false_iff_not] at h
        exact not_lt.1 h
      | poly =>
        right
        refine ⟨Or.inr rfl, ?_⟩
        intro i hi hm
        have h := hall i hi
        unfold select_step at h
        rw [hm] at h
        simp only [Bool.true_and, decide_eq_false_iff_not] at h
        exact not_lt.1 h
    · intro hrhs i hi
      unfold select_step
      rcases hrhs with hmaskall | ⟨hmeth, hsig⟩
      · rw [hmaskall i hi]
        simp
      · cases method with
        | highest =>
          rcases hmeth with h | h <;> cases h
        | slf =>
          by_cases hm : mask.getD i true = true
          · rw [hm]
            have hle := hsig i hi hm
            simp [not_lt.2 hle]
          · have hmf : mask.getD i true = false := by
              revert hm
              cases mask.getD i true <;> simp
            rw [hmf]
            simp
        | poly =>
          by_cases hm : mask.getD i true = true
          · rw [hm]
            have hle := hsig i hi hm
            simp [not_lt.2 hle]
          · have hmf : mask.getD i true = false := by
              revert hm
              cases mask.getD i true <;> simp
            rw [hmf]
            simp
  · intro hmeth hne
    subst hmeth
    have hstep : ∀ i, select_step pg .highest minSig mask i = mask.getD i true := by
      intro i
      unfold select_step
      simp
    obtain ⟨i0, hi0, hm0⟩ := hne
    have hwm0 : ((List.range pg.lsfreq.length).map
        (select_step pg .highest minSig mask)).getD i0 false = true := by
      rw [rangeMap_getD _ _ _ hi0, hstep, hm0]
    obtain ⟨istar, hlt, hmaskstar, heq, hmax⟩ :=
      highest_ampl_shape pg.lsfreq pg.lsamp _ ⟨i0, hi0, hwm0⟩
    refine ⟨istar, hlt, ?_, ?_, ?_⟩
    · rw [rangeMap_getD _ _ _ hlt, hstep] at hmaskstar
      exact hmaskstar
    · unfold select_peak
      rw [if_neg (fun habs => by
        have h := (rangeMap_all_false_iff _ _).1 habs i0 hi0
        rw [hstep, hm0] at h
        cases h)]
      exact heq
    · intro j hj hmj
      apply hmax j hj
      rw [rangeMap_getD _ _ _ hj, hstep]
      exact hmj

/-- Witness for C1: method `highest`, mask `[True, False, True]`. -/
theorem c1_select_peak_witness :
    ([true, false, true] : List Bool).length = pgC1.lsfreq.length ∧
    ((select_peak pgC1 .highest 4 [true, false, true] = (none, none) ↔
      ((∀ i < pgC1.lsfreq.length,
          ([true, false, true] : List Bool).getD i true = false) ∨
       ((PeakMethod.highest = .slf ∨ PeakMethod.highest = .poly) ∧
        ∀ i < pgC1.lsfreq.length,
          ([true, false, true] : List Bool).getD i true = true →
            pgC1.sigAt .highest i ≤ 4))) ∧
     (PeakMethod.highest = .highest →
      (∃ i, i < pgC1.lsfreq.length ∧
        ([true, false, true] : List Bool).getD i true = true) →
      ∃ i, i < pgC1.lsfreq.length ∧
        ([true, false, true] : List Bool).getD i true = true ∧
        select_peak pgC1 .highest 4 [true, false, true]
          = (some (pgC1.lsfreq.getD i 0), some (pgC1.lsamp.getD i 0)) ∧
        ∀ j, j < pgC1.lsfreq.length →
          ([true, false, true] : List Bool).getD j true = true →
            pgC1.lsamp.getD j 0 ≤ pgC1.lsamp.getD i 0)) :=
  ⟨rfl, c1_select_peak pgC1 .highest 4 [true, false, true] rfl⟩

/-- C8. Whenever the peak frequency is on the grid (first exact match `ci`),
the trough walk returns indices `(tl, tr)` and the trough frequencies are
readable, `peak_sig_box` raises the dedicated `AverageRadiusTooNarrow` error
*exactly* when the radius is narrower than the detected trough-to-trough
extent on at least one side of the peak, and otherwise returns the peak
amplitude divided by the mean amplitude within the radius excluding that
extent — computing no significance in the error case. -/
theorem c8_peak_sig_box (lsf lsa : List ℚ) (cv amp binr : ℚ) (ci : ℕ)
    (tl tr : ℤ) (ftl ftr : ℚ)
    (hci : List.findIdx? (fun y => y == cv) lsf = some ci)
    (htr : find_troughs lsf lsa ci = some (tl, tr))
    (hftl : pyGet lsf tl = some ftl)
    (hftr : pyGet lsf tr = some ftr) :
    (peak_sig_box lsf lsa cv amp binr = .error .radiusTooNarrow ↔
      (binr < lsf.getD ci 0 - ftl ∨ binr < ftr - lsf.getD ci 0)) ∧
    (¬ (binr < lsf.getD ci 0 - ftl ∨ binr < ftr - lsf.getD ci 0) →
      peak_sig_box lsf lsa cv amp binr
        = .ok (amp / listMean (box_avg_region lsf lsa ci tl tr binr))) := by
  have hiff : (lsf.getD ci 0 - binr > ftl ∨ lsf.getD ci 0 + binr < ftr) ↔
      (binr < lsf.getD ci 0 - ftl ∨ binr < ftr - lsf.getD ci 0) := by
    constructor
    · rintro (h | h)
      · exact Or.inl (by linarith)
      · exact Or.inr (by linarith)
    · rintro (h | h)
      · exact Or.inl (by linarith)
      · exact Or.inr (by linarith)
  have hunfold : peak_sig_box lsf lsa cv amp binr =
      if lsf.getD ci 0 - binr > ftl ∨ lsf.getD ci 0 + binr < ftr then
        .error .radiusTooNarrow
      else .ok (amp / listMean (box_avg_region lsf lsa ci tl tr binr)) := by
    unfold peak_sig_box
    rw [hci]
    dsimp only
    rw [htr]
    dsimp only
    rw [hftl, hftr]
  constructor
  · rw [hunfold]
    by_cases hcond : lsf.getD ci 0 - binr > ftl ∨ lsf.getD ci 0 + binr < ftr
    · rw [if_pos hcond]
      exact iff_of_true rfl (hiff.1 hcond)
    · rw [if_neg hcond]
      refine iff_of_false ?_ (fun hc => hcond (hiff.2 hc))
      intro habs
      cases habs
  · intro hnc
    rw [hunfold, if_neg (fun hc => hnc (hiff.1 hc))]

/-- Witness for C8: radius 3 covers the trough-to-trough extent, so the call
returns the amplitude over the mean of the region outside the extent. -/
theorem c8_peak_sig_box_witness :
    List.findIdx? (fun y => y == (3 : ℚ)) lsfC8 = some 3 ∧
    find_troughs lsfC8 lsaC8 3 = some (1, 5) ∧
    pyGet lsfC8 1 = some 1 ∧
    pyGet lsfC8 5 = some 5 ∧
    peak_sig_box lsfC8 lsaC8 3 9 3
      = .ok (9 / listMean (box_avg_region lsfC8 lsaC8 3 1 5 3)) := by
  have h1 : List.findIdx? (fun y => y == (3 : ℚ)) lsfC8 = some 3 := by
    with_unfolding_all rfl
  have h2 : find_troughs lsfC8 lsaC8 3 = some (1, 5) := by
    with_unfolding_all rfl
  have h3 : pyGet lsfC8 1 = some 1 := by
    with_unfolding_all rfl
  have h4 : pyGet lsfC8 5 = some 5 := by
    with_unfolding_all rfl
  have hnc : ¬ ((3 : ℚ) < lsfC8.getD 3 0 - 1 ∨ (3 : ℚ) < 5 - lsfC8.getD 3 0) := by
    have he : lsfC8.getD 3 0 = 3 := by with_unfolding_all rfl
    rw [he]
    norm_num
  exact ⟨h1, h2, h3, h4,
    (c8_peak_sig_box lsfC8 lsaC8 3 9 3 3 1 5 1 5 h1 h2 h3 h4).2 hnc⟩
